import Mathlib

/-!
Verification of the `yay` workload-generation core (a YCSB-style benchmark
driver) against its natural-language specification.

The Rust source is shallowly embedded:
- machine integers (`usize`, `u64`, `i64`) are modelled as `Nat`/`Int` with
  explicit `% 2^64` where wrapping matters;
- the atomics (`AtomicUsize`, `AtomicBool`, `RwLock`) are modelled by plain
  state passing: each operation takes the structure's state and returns the
  updated state.  The `limit.try_write()` in `acknowledge` always succeeds in
  this sequential model (in the source a failed try-write merely skips the
  watermark advance);
- Rust panics (`panic!`, `todo!`) are modelled by `Option`: `none` is a panic;
- fallible results (`anyhow::Result`) are `Except String`.
-/

namespace Yay

/-! ## Acknowledged counter (src/generator/acknowledge.rs)

`AcknowledgedUsizeCounter` / `AcknowledgedI64Counter`: an atomic issue counter,
a ring of `WINDOW_SIZE` boolean slots, and a watermark `limit` initialised to
`start - 1`.  Counter values are modelled as `Int`; `slotOf` performs the
`val as usize & Self::WINDOW_MASK` slot computation, including the 2^64
wrap-around of the unsigned cast, so negative values (e.g. the initial
watermark `start - 1` when `start = 0`) land on the same slots as in the
compiled code. -/

/-- `WINDOW_SIZE = 1 << 20` from the source. -/
def WINDOW_SIZE : Nat := 1048576

/-- `val as usize & Self::WINDOW_MASK`: reduce modulo 2^64 (the unsigned cast)
and then take the low 20 bits (`& (WINDOW_SIZE - 1)`, i.e. `% WINDOW_SIZE`). -/
def slotOf (x : Int) : Nat := (x % (18446744073709551616 : Int)).toNat % WINDOW_SIZE

/-- Pointwise update of the boolean slot array. -/
def setSlot (w : Nat → Bool) (i : Nat) (b : Bool) : Nat → Bool :=
  fun j => if j = i then b else w j

/-- State of an `Acknowledged*Counter`: the atomic issue counter, the
`windows` slot array and the `limit` watermark. -/
structure AckCounter where
  counter : Int
  windows : Nat → Bool
  limit : Int

/-- `Acknowledged*Counter::new(start)`. -/
def AckCounter.new (start : Int) : AckCounter :=
  ⟨start, fun _ => false, start - 1⟩

/-- `Generator::next`: `fetch_add(1)` returns the pre-increment value. -/
def AckCounter.next (c : AckCounter) : Int × AckCounter :=
  (c.counter, { c with counter := c.counter + 1 })

/-- `Counter::last`: read the watermark. -/
def AckCounter.last (c : AckCounter) : Int := c.limit

/-- The watermark-advance loop inside `acknowledge`:
`while index & MASK != stop { if !windows[slot] { break } ; clear; index += 1 }`.
Fuel-structured; `WINDOW_SIZE` fuel is enough because after `WINDOW_SIZE - 1`
increments the index's slot equals `stop` and the loop exits. Returns the
updated slot array and the final `index`. -/
def absorbLoop (stop : Nat) : (Nat → Bool) → Int → Nat → ((Nat → Bool) × Int)
  | w, index, 0 => (w, index)
  | w, index, fuel + 1 =>
    if slotOf index = stop then (w, index)
    else if w (slotOf index) then
      absorbLoop stop (setSlot w (slotOf index) false) (index + 1) fuel
    else (w, index)

/-- `AcknowledgedCounter::acknowledge(val)`.  `none` models the
`panic!("Too many unacknowledged insertion keys.")` taken when the slot is
already marked.  The `try_write` is modelled as always acquiring (sequential
execution). -/
def AckCounter.acknowledge (c : AckCounter) (val : Int) : Option AckCounter :=
  let slot := slotOf val
  if c.windows slot then none
  else
    let w1 := setSlot c.windows slot true
    let stop := slotOf c.limit
    let r := absorbLoop stop w1 (c.limit + 1) WINDOW_SIZE
    some ⟨c.counter, r.1, r.2 - 1⟩

/-- Apply `next()` `n` times, keeping only the state. -/
def nextN (c : AckCounter) : Nat → AckCounter
  | 0 => c
  | n + 1 => ((nextN c n).next).2

/-- Acknowledge a list of values in order; `none` as soon as one call panics. -/
def ackSeq : AckCounter → List Int → Option AckCounter
  | c, [] => some c
  | c, v :: vs =>
    match c.acknowledge v with
    | none => none
    | some c' => ackSeq c' vs

/-! ### Slot arithmetic -/

theorem WINDOW_SIZE_dvd : ((WINDOW_SIZE : Int)) ∣ (18446744073709551616 : Int) := by
  refine ⟨17592186044416, by norm_num [WINDOW_SIZE]⟩

theorem slotOf_cast (x : Int) : (slotOf x : Int) = x % (WINDOW_SIZE : Int) := by
  unfold slotOf
  have h0 : (0 : Int) ≤ x % (18446744073709551616 : Int) :=
    Int.emod_nonneg x (by norm_num)
  push_cast
  rw [Int.toNat_of_nonneg h0]
  exact Int.emod_emod_of_dvd x WINDOW_SIZE_dvd

theorem slotOf_inj_window {l u v : Int} (hu1 : l < u) (hu2 : u ≤ l + (WINDOW_SIZE : Int))
    (hv1 : l < v) (hv2 : v ≤ l + (WINDOW_SIZE : Int)) (h : slotOf u = slotOf v) : u = v := by
  have hc : (slotOf u : Int) = (slotOf v : Int) := by exact_mod_cast h
  rw [slotOf_cast, slotOf_cast] at hc
  have hW : (WINDOW_SIZE : Int) = 1048576 := by norm_num [WINDOW_SIZE]
  rw [hW] at hc hu2 hv2
  omega

theorem WS_int : (WINDOW_SIZE : Int) = 1048576 := by norm_num [WINDOW_SIZE]

theorem slotOf_add_window (x : Int) : slotOf (x + (WINDOW_SIZE : Int)) = slotOf x := by
  have : (slotOf (x + (WINDOW_SIZE : Int)) : Int) = (slotOf x : Int) := by
    rw [slotOf_cast, slotOf_cast]
    have hW : (WINDOW_SIZE : Int) = 1048576 := by norm_num [WINDOW_SIZE]
    rw [hW]
    omega
  exact_mod_cast this

/-! ### Basic facts about the absorb loop -/

theorem absorbLoop_index_ge (stop : Nat) :
    ∀ (fuel : Nat) (w : Nat → Bool) (i : Int), i ≤ (absorbLoop stop w i fuel).2 := by
  intro fuel
  induction fuel with
  | zero => intro w i; simp [absorbLoop]
  | succ n ih =>
    intro w i
    unfold absorbLoop
    split
    · simp
    · split
      · exact le_trans (by omega) (ih _ (i + 1))
      · simp

theorem absorbLoop_index_le (l : Int) :
    ∀ (fuel : Nat) (w : Nat → Bool) (i : Int), l < i → i ≤ l + (WINDOW_SIZE : Int) →
      (absorbLoop (slotOf l) w i fuel).2 ≤ l + (WINDOW_SIZE : Int) := by
  intro fuel
  induction fuel with
  | zero => intro w i _ h2; simpa [absorbLoop] using h2
  | succ n ih =>
    intro w i h1 h2
    unfold absorbLoop
    split
    · simpa using h2
    · rename_i hne
      split
      · refine ih _ (i + 1) (by omega) ?_
        rcases lt_or_eq_of_le h2 with h | h
        · omega
        · exact absurd (h ▸ slotOf_add_window l) hne
      · simpa using h2

theorem absorbLoop_unchanged (stop : Nat) :
    ∀ (fuel : Nat) (w : Nat → Bool) (i : Int) (t : Nat),
      (∀ j : Int, i ≤ j → j < (absorbLoop stop w i fuel).2 → slotOf j ≠ t) →
      (absorbLoop stop w i fuel).1 t = w t := by
  intro fuel
  induction fuel with
  | zero => intro w i t _; simp [absorbLoop]
  | succ n ih =>
    intro w i t hj
    by_cases hstop : slotOf i = stop
    · simp [absorbLoop, hstop]
    · by_cases hset : w (slotOf i) = true
      · have hred : absorbLoop stop w i (n + 1) =
            absorbLoop stop (setSlot w (slotOf i) false) (i + 1) n := by
          simp [absorbLoop, hstop, hset]
        rw [hred] at hj ⊢
        have hi : i < (absorbLoop stop (setSlot w (slotOf i) false) (i + 1) n).2 :=
          lt_of_lt_of_le (by omega) (absorbLoop_index_ge stop n _ (i + 1))
        have hit : slotOf i ≠ t := hj i le_rfl hi
        rw [ih _ (i + 1) t (fun j hj1 hj2 => hj j (by omega) hj2)]
        simp [setSlot, Ne.symm hit]
      · simp [absorbLoop, hstop, hset]

/-- Main specification of the absorb loop, relative to a ghost set `A` of
acknowledged key numbers.  If on entry the slots of the active window
`(l, l + W]` reflect membership in `A` for the not-yet-scanned part and are
clear for the already-scanned part, then on exit: every index the cursor moved
past is in `A`; slots of indices below the final cursor are clear; slots of
indices at or above the final cursor are untouched. -/
theorem absorbLoop_spec (l : Int) (A : Int → Prop) :
    ∀ (fuel : Nat) (w : Nat → Bool) (i : Int),
      l < i → i ≤ l + (WINDOW_SIZE : Int) →
      l + (WINDOW_SIZE : Int) ≤ i + (fuel : Int) →
      (∀ u : Int, i ≤ u → u ≤ l + (WINDOW_SIZE : Int) → (w (slotOf u) = true ↔ A u)) →
      (∀ u : Int, l < u → u < i → w (slotOf u) = false) →
      (∀ u : Int, i ≤ u → u < (absorbLoop (slotOf l) w i fuel).2 → A u) ∧
      (∀ u : Int, l < u → u < (absorbLoop (slotOf l) w i fuel).2 →
        (absorbLoop (slotOf l) w i fuel).1 (slotOf u) = false) ∧
      (∀ u : Int, (absorbLoop (slotOf l) w i fuel).2 ≤ u → u ≤ l + (WINDOW_SIZE : Int) →
        (absorbLoop (slotOf l) w i fuel).1 (slotOf u) = w (slotOf u)) := by
  intro fuel
  induction fuel with
  | zero =>
    intro w i h1 h2 hfuel h4 h5
    refine ⟨?_, ?_, ?_⟩
    · intro u hu1 hu2; simp [absorbLoop] at hu2; omega
    · intro u hu1 hu2; simp [absorbLoop] at hu2 ⊢; exact h5 u hu1 hu2
    · intro u _ _; simp [absorbLoop]
  | succ n ih =>
    intro w i h1 h2 hfuel h4 h5
    by_cases hstop : slotOf i = slotOf l
    · have hred : absorbLoop (slotOf l) w i (n + 1) = (w, i) := by
        simp [absorbLoop, hstop]
      rw [hred]
      exact ⟨fun u hu1 hu2 => absurd (lt_of_le_of_lt hu1 hu2) (lt_irrefl i),
        fun u hu1 hu2 => h5 u hu1 hu2, fun u _ _ => rfl⟩
    · have hlt : i < l + (WINDOW_SIZE : Int) := by
        rcases lt_or_eq_of_le h2 with h | h
        · exact h
        · exact absurd (h ▸ slotOf_add_window l) hstop
      by_cases hset : w (slotOf i) = true
      · have hred : absorbLoop (slotOf l) w i (n + 1) =
            absorbLoop (slotOf l) (setSlot w (slotOf i) false) (i + 1) n := by
          simp [absorbLoop, hstop, hset]
        rw [hred]
        have hAi : A i := (h4 i le_rfl (le_of_lt hlt)).1 hset
        have hne_slot : ∀ u : Int, l < u → u ≤ l + (WINDOW_SIZE : Int) → u ≠ i →
            slotOf u ≠ slotOf i := by
          intro u hu1 hu2 hne hq
          exact hne (slotOf_inj_window hu1 hu2 h1 (le_of_lt hlt) hq)
        have h4' : ∀ u : Int, i + 1 ≤ u → u ≤ l + (WINDOW_SIZE : Int) →
            ((setSlot w (slotOf i) false) (slotOf u) = true ↔ A u) := by
          intro u hu1 hu2
          have hne := hne_slot u (by omega) hu2 (by omega)
          rw [setSlot, if_neg hne]
          exact h4 u (by omega) hu2
        have h5' : ∀ u : Int, l < u → u < i + 1 →
            (setSlot w (slotOf i) false) (slotOf u) = false := by
          intro u hu1 hu2
          by_cases hui : u = i
          · rw [hui, setSlot, if_pos rfl]
          · have hne := hne_slot u hu1 (by omega) hui
            rw [setSlot, if_neg hne]
            exact h5 u hu1 (by omega)
        obtain ⟨c2, c3, c4⟩ := ih (setSlot w (slotOf i) false) (i + 1) (by omega) (by omega)
          (by push_cast at hfuel ⊢; omega) h4' h5'
        refine ⟨?_, c3, ?_⟩
        · intro u hu1 hu2
          by_cases hui : u = i
          · exact hui ▸ hAi
          · exact c2 u (by omega) hu2
        · intro u hu1 hu2
          rw [c4 u hu1 hu2, setSlot]
          have hge : i + 1 ≤ (absorbLoop (slotOf l) (setSlot w (slotOf i) false) (i + 1) n).2 :=
            absorbLoop_index_ge _ n _ _
          exact if_neg (hne_slot u (by omega) hu2 (by omega))
      · have hred : absorbLoop (slotOf l) w i (n + 1) = (w, i) := by
          simp [absorbLoop, hstop, hset]
        rw [hred]
        exact ⟨fun u hu1 hu2 => absurd (lt_of_le_of_lt hu1 hu2) (lt_irrefl i),
          fun u hu1 hu2 => h5 u hu1 hu2, fun u _ _ => rfl⟩

/-! ### Ghost state and the window invariant

`acked` is the ghost set of values passed to successful `acknowledge` calls.
`AckInv` is the inductive invariant of a sequentially executed counter started
at `start`:
- every value from `start` up to the watermark has been acknowledged;
- acknowledged values were issued (`< counter`) and lie at most one window
  above the watermark;
- within the active window `(limit, limit + W]`, a value's slot is marked
  exactly when the value has been acknowledged (and not yet absorbed). -/

structure AckGhost where
  st : AckCounter
  acked : Int → Prop

structure AckInv (start : Int) (s : AckCounter) (A : Int → Prop) : Prop where
  low_acked : ∀ u : Int, start ≤ u → u ≤ s.limit → A u
  acked_bounds : ∀ u : Int, A u → start ≤ u ∧ u < s.counter ∧ u ≤ s.limit + (WINDOW_SIZE : Int)
  window_ok : ∀ u : Int, s.limit < u → u ≤ s.limit + (WINDOW_SIZE : Int) →
    (s.windows (slotOf u) = true ↔ A u)

/-- Acknowledging an issued, fresh value within one window of the watermark
cannot panic, preserves the invariant, and never moves the watermark down. -/
theorem ack_preserves_inv (start : Int) (s : AckCounter) (A : Int → Prop) (v : Int)
    (hinv : AckInv start s A) (hlo : start ≤ v) (hhi : v < s.counter) (hfresh : ¬ A v)
    (hwin : v ≤ s.limit + (WINDOW_SIZE : Int)) :
    ∃ s' : AckCounter, s.acknowledge v = some s' ∧
      AckInv start s' (fun u => A u ∨ u = v) ∧ s.limit ≤ s'.limit ∧ s'.counter = s.counter := by
  have hvgt : s.limit < v := by
    by_contra h
    exact hfresh (hinv.low_acked v hlo (by omega))
  have hslotv : s.windows (slotOf v) = false := by
    rcases Bool.eq_false_or_eq_true (s.windows (slotOf v)) with h | h
    · exact absurd ((hinv.window_ok v hvgt hwin).1 h) hfresh
    · exact h
  set l := s.limit with hl
  set w1 := setSlot s.windows (slotOf v) true with hw1
  have hne_slot : ∀ u : Int, l < u → u ≤ l + (WINDOW_SIZE : Int) → u ≠ v →
      slotOf u ≠ slotOf v := by
    intro u hu1 hu2 hne hq
    exact hne (slotOf_inj_window hu1 hu2 hvgt hwin hq)
  have h4 : ∀ u : Int, l + 1 ≤ u → u ≤ l + (WINDOW_SIZE : Int) →
      (w1 (slotOf u) = true ↔ (A u ∨ u = v)) := by
    intro u hu1 hu2
    by_cases huv : u = v
    · subst huv
      rw [hw1, setSlot, if_pos rfl]
      simp
    · rw [hw1, setSlot, if_neg (hne_slot u (by omega) hu2 huv)]
      rw [hinv.window_ok u (by omega) hu2]
      exact ⟨fun h => Or.inl h, fun h => h.resolve_right huv⟩
  have h5 : ∀ u : Int, l < u → u < l + 1 → w1 (slotOf u) = false := by
    intro u hu1 hu2; omega
  obtain ⟨c2, c3, c4⟩ := absorbLoop_spec l (fun u => A u ∨ u = v) WINDOW_SIZE w1 (l + 1)
    (by omega) (by rw [WS_int]; omega) (by omega) h4 h5
  set r := absorbLoop (slotOf l) w1 (l + 1) WINDOW_SIZE with hr
  have hge : l + 1 ≤ r.2 := absorbLoop_index_ge _ _ _ _
  have hle : r.2 ≤ l + (WINDOW_SIZE : Int) := by
    refine absorbLoop_index_le l WINDOW_SIZE w1 (l + 1) (by omega) (by rw [WS_int]; omega)
  refine ⟨⟨s.counter, r.1, r.2 - 1⟩, ?_, ?_, by simp; omega, rfl⟩
  · rw [AckCounter.acknowledge]
    simp only [hslotv, Bool.false_eq_true, if_false]
  · refine ⟨?_, ?_, ?_⟩
    · intro u hu1 hu2
      simp only at hu2
      by_cases hul : u ≤ l
      · exact Or.inl (hinv.low_acked u hu1 hul)
      · exact c2 u (by omega) (by omega)
    · intro u hu
      rcases hu with h | h
      · obtain ⟨b1, b2, b3⟩ := hinv.acked_bounds u h
        exact ⟨b1, b2, by simp; omega⟩
      · subst h
        exact ⟨hlo, hhi, by simp; omega⟩
    · intro u hu1 hu2
      simp only at hu1 hu2 ⊢
      by_cases hub : u ≤ l + (WINDOW_SIZE : Int)
      · rw [c4 u (by omega) hub]
        exact h4 u (by omega) hub
      · have humw : l < u - (WINDOW_SIZE : Int) := by omega
        have humw2 : u - (WINDOW_SIZE : Int) < r.2 := by omega
        have hslot : slotOf u = slotOf (u - (WINDOW_SIZE : Int)) := by
          have := slotOf_add_window (u - (WINDOW_SIZE : Int))
          simpa using this
        rw [hslot, c3 (u - (WINDOW_SIZE : Int)) humw humw2]
        simp only [Bool.false_eq_true, false_iff]
        intro hu
        rcases hu with h | h
        · obtain ⟨_, _, b3⟩ := hinv.acked_bounds u h
          omega
        · omega

/-! ### Sequential executions of the acknowledged counter

Two step relations over ghost states.  `AckStepIssued` allows any interleaving
of `next()` and `acknowledge(v)` constrained only by "v was issued"
(`start ≤ v < counter`) — exactly the hypothesis of the spec's invariant
claim.  `AckStepBounded` additionally requires the acknowledged value to be
fresh and within one window of the current watermark. -/

def ackInit (start : Int) : AckGhost := ⟨AckCounter.new start, fun _ => False⟩

inductive AckStepIssued (start : Int) : AckGhost → AckGhost → Prop
  | issue (g : AckGhost) : AckStepIssued start g ⟨(g.st.next).2, g.acked⟩
  | ack (g : AckGhost) (v : Int) (s' : AckCounter)
      (hlo : start ≤ v) (hhi : v < g.st.counter)
      (hres : g.st.acknowledge v = some s') :
      AckStepIssued start g ⟨s', fun u => g.acked u ∨ u = v⟩

inductive AckStepBounded (start : Int) : AckGhost → AckGhost → Prop
  | issue (g : AckGhost) : AckStepBounded start g ⟨(g.st.next).2, g.acked⟩
  | ack (g : AckGhost) (v : Int) (s' : AckCounter)
      (hlo : start ≤ v) (hhi : v < g.st.counter)
      (hfresh : ¬ g.acked v) (hwin : v ≤ g.st.limit + (WINDOW_SIZE : Int))
      (hres : g.st.acknowledge v = some s') :
      AckStepBounded start g ⟨s', fun u => g.acked u ∨ u = v⟩

/-- A successful `acknowledge` never moves the watermark down, with no
assumption at all on the state. -/
theorem acknowledge_limit_mono (s s' : AckCounter) (v : Int)
    (h : s.acknowledge v = some s') : s.limit ≤ s'.limit := by
  rw [AckCounter.acknowledge] at h
  by_cases hw : s.windows (slotOf v) = true
  · simp [hw] at h
  · simp only [hw, Bool.false_eq_true, if_false, Option.some.injEq] at h
    have := absorbLoop_index_ge (slotOf s.limit) WINDOW_SIZE
      (setSlot s.windows (slotOf v) true) (s.limit + 1)
    rw [← h]
    simp only
    omega

/-- The invariant holds in every state reachable by bounded steps. -/
theorem reachable_inv (start : Int) (g : AckGhost)
    (h : Relation.ReflTransGen (AckStepBounded start) (ackInit start) g) :
    AckInv start g.st g.acked := by
  induction h with
  | refl =>
    refine ⟨?_, ?_, ?_⟩
    · intro u hu1 hu2
      simp [ackInit, AckCounter.new] at hu2
      omega
    · intro u hu; exact absurd hu (fun h => h)
    · intro u _ _
      simp [ackInit, AckCounter.new]
  | tail hr hstep ih =>
    cases hstep
    case issue =>
      refine ⟨ih.low_acked, ?_, ih.window_ok⟩
      intro u hu
      obtain ⟨b1, b2, b3⟩ := ih.acked_bounds u hu
      refine ⟨b1, ?_, b3⟩
      simp [AckCounter.next]
      omega
    case ack v s' hlo hhi hfresh hwin hres =>
      obtain ⟨s'', heq, hinv', _, _⟩ := ack_preserves_inv start _ _ v ih hlo hhi hfresh hwin
      have hs : s'' = s' := Option.some.inj (heq.symm.trans hres)
      subst hs
      exact hinv'

/-- Issuing `n` values changes only the issue counter. -/
theorem reach_issues (start : Int) (g : AckGhost) (n : Nat) :
    Relation.ReflTransGen (AckStepIssued start) g
      ⟨⟨g.st.counter + (n : Int), g.st.windows, g.st.limit⟩, g.acked⟩ := by
  induction n with
  | zero => simpa using Relation.ReflTransGen.refl
  | succ n ih =>
    have hcast : (((n + 1 : Nat)) : Int) = (n : Int) + 1 := by push_cast; ring
    rw [hcast, ← add_assoc]
    exact Relation.ReflTransGen.tail ih (AckStepIssued.issue _)

/-- Claim C3, as stated, is refuted: starting at `0`, issue the
`WINDOW_SIZE + 1` values `0, 1, …, WINDOW_SIZE` and acknowledge only the
issued value `WINDOW_SIZE`.  Its slot aliases slot `0`, so the watermark
advances to `0` even though `0` itself is still outstanding: `last()` is not
strictly below the issued-but-unacknowledged key number `0`. -/
theorem c3_counterexample :
    ∃ g : AckGhost, Relation.ReflTransGen (AckStepIssued 0) (ackInit 0) g ∧
      (0 : Int) ≤ 0 ∧ 0 < g.st.counter ∧ ¬ g.acked 0 ∧ ¬ (g.st.last < 0) := by
  have hreach := reach_issues 0 (ackInit 0) (WINDOW_SIZE + 1)
  have hsome : ((⟨(0 : Int) + ((WINDOW_SIZE + 1 : Nat) : Int), fun _ => false,
      (0 : Int) - 1⟩ : AckCounter).acknowledge (WINDOW_SIZE : Int)).isSome = true := by rfl
  refine ⟨⟨Option.get _ hsome, fun u => False ∨ u = (WINDOW_SIZE : Int)⟩, ?_, le_rfl, ?_, ?_, ?_⟩
  · refine Relation.ReflTransGen.tail hreach ?_
    exact AckStepIssued.ack _ (WINDOW_SIZE : Int) _ (by positivity)
      (by simp [ackInit, AckCounter.new]) (Option.some_get hsome).symm
  · have hc : (Option.get _ hsome).counter = (0 : Int) + ((WINDOW_SIZE + 1 : Nat) : Int) := rfl
    rw [hc]
    positivity
  · simp only
    rw [WS_int]
    norm_num
  · have hl : (Option.get _ hsome).last = 0 := rfl
    simp only [hl]
    omega

/-- Claim C3 (amended): for every acknowledged counter started at `start` and
every sequence of `next()` and `acknowledge()` steps that acknowledges only
issued, not previously acknowledged values lying at most `WINDOW_SIZE` above
the current watermark, the watermark `last()` never decreases across a step,
and in every reachable state it is strictly below every issued-but-not-yet-
acknowledged key number. -/
theorem c3_watermark_invariant (start : Int) :
    (∀ g g' : AckGhost, AckStepBounded start g g' → g.st.last ≤ g'.st.last) ∧
    (∀ g : AckGhost, Relation.ReflTransGen (AckStepBounded start) (ackInit start) g →
      ∀ v : Int, start ≤ v → v < g.st.counter → ¬ g.acked v → g.st.last < v) := by
  constructor
  · intro g g' hstep
    cases hstep
    case issue => exact le_rfl
    case ack v s' hlo hhi hfresh hwin hres => exact acknowledge_limit_mono _ _ _ hres
  · intro g hreach v hlo hhi hfresh
    rw [AckCounter.last]
    by_contra h
    exact hfresh ((reachable_inv start g hreach).low_acked v hlo (by omega))

/-- Witness for the amended C3: after a single issue step from `start = 0`,
the key number `0` is issued and unacknowledged, and the watermark `-1` is
strictly below it. -/
theorem c3_watermark_invariant_witness :
    (⟨((AckCounter.new 0).next).2, fun _ => False⟩ : AckGhost).st.last < 0 :=
  (c3_watermark_invariant 0).2 _
    (Relation.ReflTransGen.single (AckStepBounded.issue (ackInit 0))) 0 le_rfl
    (by simp [ackInit, AckCounter.new, AckCounter.next]) not_false

/-- Claim C4: for a counter started at `0` that has issued `0..9`:
acknowledging in increasing order `0,1,…,9` makes `last()` equal `k`
immediately after `acknowledge(k)`; acknowledging in reverse order `9,8,…,1`
leaves the watermark at its initial value `-1` (below `0`) after every call,
and `last()` becomes `9` only once `0` itself is acknowledged. -/
theorem c4_contiguous_acknowledge_semantics :
    (Option.map AckCounter.last (ackSeq (nextN (AckCounter.new 0) 10) [0]) = some 0) ∧
    (Option.map AckCounter.last (ackSeq (nextN (AckCounter.new 0) 10) [0, 1]) = some 1) ∧
    (Option.map AckCounter.last (ackSeq (nextN (AckCounter.new 0) 10) [0, 1, 2]) = some 2) ∧
    (Option.map AckCounter.last (ackSeq (nextN (AckCounter.new 0) 10) [0, 1, 2, 3]) = some 3) ∧
    (Option.map AckCounter.last (ackSeq (nextN (AckCounter.new 0) 10) [0, 1, 2, 3, 4]) =
      some 4) ∧
    (Option.map AckCounter.last (ackSeq (nextN (AckCounter.new 0) 10) [0, 1, 2, 3, 4, 5]) =
      some 5) ∧
    (Option.map AckCounter.last (ackSeq (nextN (AckCounter.new 0) 10) [0, 1, 2, 3, 4, 5, 6]) =
      some 6) ∧
    (Option.map AckCounter.last (ackSeq (nextN (AckCounter.new 0) 10)
      [0, 1, 2, 3, 4, 5, 6, 7]) = some 7) ∧
    (Option.map AckCounter.last (ackSeq (nextN (AckCounter.new 0) 10)
      [0, 1, 2, 3, 4, 5, 6, 7, 8]) = some 8) ∧
    (Option.map AckCounter.last (ackSeq (nextN (AckCounter.new 0) 10)
      [0, 1, 2, 3, 4, 5, 6, 7, 8, 9]) = some 9) ∧
    (Option.map AckCounter.last (ackSeq (nextN (AckCounter.new 0) 10) [9]) = some (-1)) ∧
    (Option.map AckCounter.last (ackSeq (nextN (AckCounter.new 0) 10) [9, 8]) = some (-1)) ∧
    (Option.map AckCounter.last (ackSeq (nextN (AckCounter.new 0) 10) [9, 8, 7]) = some (-1)) ∧
    (Option.map AckCounter.last (ackSeq (nextN (AckCounter.new 0) 10) [9, 8, 7, 6]) =
      some (-1)) ∧
    (Option.map AckCounter.last (ackSeq (nextN (AckCounter.new 0) 10) [9, 8, 7, 6, 5]) =
      some (-1)) ∧
    (Option.map AckCounter.last (ackSeq (nextN (AckCounter.new 0) 10) [9, 8, 7, 6, 5, 4]) =
      some (-1)) ∧
    (Option.map AckCounter.last (ackSeq (nextN (AckCounter.new 0) 10) [9, 8, 7, 6, 5, 4, 3]) =
      some (-1)) ∧
    (Option.map AckCounter.last (ackSeq (nextN (AckCounter.new 0) 10)
      [9, 8, 7, 6, 5, 4, 3, 2]) = some (-1)) ∧
    (Option.map AckCounter.last (ackSeq (nextN (AckCounter.new 0) 10)
      [9, 8, 7, 6, 5, 4, 3, 2, 1]) = some (-1)) ∧
    (Option.map AckCounter.last (ackSeq (nextN (AckCounter.new 0) 10)
      [9, 8, 7, 6, 5, 4, 3, 2, 1, 0]) = some 9) :=
  ⟨rfl, rfl, rfl, rfl, rfl, rfl, rfl, rfl, rfl, rfl, rfl, rfl, rfl, rfl, rfl, rfl, rfl, rfl,
    rfl, rfl⟩

/-- Claim C5 as stated is refuted: issue `0`, acknowledge `0` (the watermark
absorbs it and clears its slot), then acknowledge `0` a second time.  The
second call finds the slot clear and returns normally instead of raising the
fatal overflow panic. -/
theorem c5_counterexample :
    ((AckCounter.acknowledge (nextN (AckCounter.new 0) 1) 0).bind
      (fun s => s.acknowledge 0)).isSome = true := rfl

/-- Claim C5 (amended): a second `acknowledge(v)` raises the fatal overflow
panic provided `v` was still above the watermark (not yet absorbed) after the
first call; if the first call absorbed `v` into the watermark, the second call
returns normally (as `c5_counterexample` shows). -/
theorem c5_double_acknowledge_panics (s s' : AckCounter) (v : Int)
    (h1 : s.limit < v) (h2 : v ≤ s.limit + (WINDOW_SIZE : Int))
    (h3 : s.acknowledge v = some s') (h4 : s'.limit < v) :
    s'.acknowledge v = none := by
  by_cases hw : s.windows (slotOf v) = true
  · rw [AckCounter.acknowledge] at h3
    simp [hw] at h3
  · rw [AckCounter.acknowledge] at h3
    simp only [hw, Bool.false_eq_true, if_false, Option.some.injEq] at h3
    set w1 := setSlot s.windows (slotOf v) true with hw1
    set r := absorbLoop (slotOf s.limit) w1 (s.limit + 1) WINDOW_SIZE with hr
    have hlim : s'.limit = r.2 - 1 := by rw [← h3]
    have hle : r.2 ≤ s.limit + (WINDOW_SIZE : Int) :=
      absorbLoop_index_le s.limit WINDOW_SIZE w1 (s.limit + 1) (by omega)
        (by rw [WS_int]; omega)
    have hmark : s'.windows (slotOf v) = true := by
      rw [← h3]
      simp only
      rw [absorbLoop_unchanged (slotOf s.limit) WINDOW_SIZE w1 (s.limit + 1) (slotOf v) ?_]
      · rw [hw1, setSlot, if_pos rfl]
      · intro j hj1 hj2 hq
        rw [← hr] at hj2
        have := slotOf_inj_window (l := s.limit) (by omega) (by omega) h1 h2 hq
        omega
    rw [AckCounter.acknowledge, hmark]
    simp

/-- Witness for the amended C5: issue `0` and `1`, acknowledge `1` (watermark
stays `-1 < 1`, so `1` is unabsorbed), then acknowledge `1` again: panic. -/
theorem c5_double_acknowledge_panics_witness :
    ∃ s2 : AckCounter, (nextN (AckCounter.new 0) 2).acknowledge 1 = some s2 ∧
      s2.acknowledge 1 = none := by
  have hsome : ((nextN (AckCounter.new 0) 2).acknowledge 1).isSome = true := by rfl
  refine ⟨((nextN (AckCounter.new 0) 2).acknowledge 1).get hsome,
    (Option.some_get hsome).symm, ?_⟩
  refine c5_double_acknowledge_panics (nextN (AckCounter.new 0) 2) _ 1 (by decide)
    (by rw [WS_int]; decide) (Option.some_get hsome).symm ?_
  have hlim : ((((nextN (AckCounter.new 0) 2).acknowledge 1)).get hsome).limit = -1 := rfl
  rw [hlim]
  norm_num

/-! ## Workload engine (src/workload.rs) and utilities (src/utils.rs)

`usize` arithmetic wraps modulo `2^64` (release-mode Rust semantics). -/

/-- `2^64`, the `usize`/`u64` modulus. -/
def USIZE_MOD : Nat := 18446744073709551616

/-- `FNV_OFFSET_BASIS_64`. -/
def fnvOffsetBasis : Nat := 0xCBF29CE484222325

/-- `FNV_PRIME_64`. -/
def fnvPrime : Nat := 1099511628211

/-- The 8-round loop of `fnvhash64`: take the low byte of `val`, shift `val`
right by 8, `hash = hash.wrapping_mul(FNV_PRIME_64) ^ byte`. -/
def fnvLoop : Nat → Nat → Nat → Nat
  | hash, _, 0 => hash
  | hash, val, n + 1 =>
    fnvLoop (Nat.xor ((hash * fnvPrime) % USIZE_MOD) (val % 256)) (val / 256) n

/-- `utils::fnvhash64` (FNV-1, 64-bit). -/
def fnvhash64 (val : Nat) : Nat := fnvLoop fnvOffsetBasis val 8

/-- Zero padding of `format!("{key_num:0width$}")`: left-pad the decimal
representation with `'0'` up to `width` characters. -/
def zeroPad (width : Nat) (s : String) : String :=
  if s.length < width then String.mk (List.replicate (width - s.length) '0') ++ s else s

/-- `utils::Value`: either a deterministic string (integrity mode) or a lazy
random byte stream, of which only the length is determined. -/
inductive ValueM where
  | deterministic : String → ValueM
  | random : Nat → ValueM
deriving DecidableEq

/-- The inner loop of `build_deterministic_value`: while the accumulated
string is shorter than `size`, append `':'` followed by the decimal rendering
of the hash of the current string.  `hash` abstracts
`ahash::RandomState::with_seed(0).hash_one` (a fixed deterministic function).
Each iteration grows the string, so `size` rounds of fuel always suffice. -/
def bdvLoop (hash : String → Nat) (size : Nat) : String → Nat → String
  | ret, 0 => ret
  | ret, fuel + 1 =>
    if ret.length < size then bdvLoop hash size (ret ++ ":" ++ toString (hash ret)) fuel
    else ret

/-- `CoreWorkload::build_deterministic_value` (all characters are ASCII, so
`String.take` agrees with `String::truncate` on byte length). -/
def buildDeterministicValue (hash : String → Nat) (size : Nat) (key fieldKey : String) :
    String :=
  (bdvLoop hash size (key ++ ":" ++ fieldKey) size).take size

/-- `CoreWorkload::build_values` in data-integrity mode with the `"constant"`
field-length distribution (every `field_length_generator.next()` returns the
same `size`, and `new` requires `"constant"` whenever integrity is on). -/
def buildValuesDet (hash : String → Nat) (size : Nat) (key : String)
    (fieldNames : List String) : List (String × String) :=
  fieldNames.map (fun f => (f, buildDeterministicValue hash size key f))

/-- `cells.remove(&field)`: look up a field and return its value together
with the map without that entry. -/
def removeField (f : String) : List (String × String) → Option (String × List (String × String))
  | [] => none
  | (k, v) :: rest =>
    if k = f then some (v, rest)
    else
      match removeField f rest with
      | none => none
      | some (v', rest') => some (v', (k, v) :: rest')

/-- `CoreWorkload::verify_row` with the `"constant"` field-length
distribution.  `some (Except.error m)` is an early `Err` return (missing field
or byte mismatch); `none` is the `todo!()` reached after every requested field
verified successfully.  The function has no way to return `Ok`. -/
def verifyRow (hash : String → Nat) (size : Nat) (key : String) :
    List String → List (String × String) → Option (Except String Unit)
  | [], _ => none
  | f :: fields, cells =>
    match removeField f cells with
    | none => some (Except.error ("missing value for field " ++ f))
    | some (got, cells') =>
      if got ≠ buildDeterministicValue hash size key f then
        some (Except.error ("value mismitch for field " ++ f))
      else verifyRow hash size key fields cells'

/-- The fields of `CoreWorkload` needed by the transaction paths under
verification, with the `"constant"` field-length generator inlined as
`fieldLen` and the random draws of the scan-length and field choosers
modelled as oracle streams consumed at a position counter. -/
structure CoreW where
  table : String
  fieldNames : List String
  fieldLen : Nat
  dataIntegrity : Bool
  orderedInserts : Bool
  zeroPadding : Nat
  readAllFields : Bool
  ahash : String → Nat
  tiks : AckCounter
  scanLens : Nat → Nat
  scanPos : Nat
  fieldIdxs : Nat → Nat
  fieldPos : Nat

/-- The `val as usize` cast from the modelled `Int` counter value. -/
def intToUsize (x : Int) : Nat := (x % (18446744073709551616 : Int)).toNat

/-- `CoreWorkload::build_key_name`: hash the key number unless inserts are
ordered, then zero-pad its decimal rendering. -/
def CoreW.buildKeyName (w : CoreW) (keyNum : Nat) : String :=
  let k := if w.orderedInserts then keyNum else fnvhash64 keyNum
  zeroPad w.zeroPadding (toString k)

/-- `CoreWorkload::build_values`: one value per field name; deterministic
when integrity checking is on, otherwise a lazy random value of the drawn
length (always `fieldLen` under the `"constant"` distribution). -/
def CoreW.buildValues (w : CoreW) (key : String) : List (String × ValueM) :=
  w.fieldNames.map fun f =>
    (f, if w.dataIntegrity
        then ValueM.deterministic (buildDeterministicValue w.ahash w.fieldLen key f)
        else ValueM.random w.fieldLen)

/-- `CoreWorkload::txn_insert`: draw the next key number from the
transaction-insert sequencer, build key and values, call the backend, then
acknowledge the key number whatever the backend returned, and pass the
backend's result through.  `none` is the (theoretically possible) panic of
`acknowledge`. -/
def txnInsert (db : String → String → List (String × ValueM) → Except String Unit)
    (w : CoreW) : Option (Except String Unit × CoreW) :=
  let keyNum := (w.tiks.next).1
  let tiks1 := (w.tiks.next).2
  let keyName := w.buildKeyName (intToUsize keyNum)
  let values := w.buildValues keyName
  let res := db w.table keyName values
  match tiks1.acknowledge keyNum with
  | none => none
  | some tiks2 => some (res, { w with tiks := tiks2 })

/-- `CoreWorkload::txn_scan`: draw a start key number from the
transaction-insert sequencer (never acknowledging it), draw a scan length,
optionally draw one field name, call the backend and propagate only its
error/success. -/
def txnScan {α : Type} (db : String → String → Nat → List String → Except String α)
    (w : CoreW) : Except String Unit × CoreW :=
  let keyNum := (w.tiks.next).1
  let tiks1 := (w.tiks.next).2
  let startKeyName := w.buildKeyName (intToUsize keyNum)
  let len := w.scanLens w.scanPos
  let fields :=
    if w.readAllFields then ([] : List String)
    else [w.fieldNames.getD (w.fieldIdxs w.fieldPos) ""]
  let w' := { w with
    tiks := tiks1
    scanPos := w.scanPos + 1
    fieldPos := if w.readAllFields then w.fieldPos else w.fieldPos + 1 }
  (Except.map (fun _ => ()) (db w.table startKeyName len fields), w')

/-- Run `n` consecutive scan transactions, discarding their results. -/
def iterScan {α : Type} (db : String → String → Nat → List String → Except String α) :
    Nat → CoreW → CoreW
  | 0, w => w
  | n + 1, w => iterScan db n (txnScan db w).2

/-- `CoreWorkload::next_key_num`: repeatedly draw from the key chooser until
the draw is at most the watermark of the transaction-insert sequencer.  The
chooser's draws and the watermark observed at each check are oracle streams;
the loop is given fuel and returns the chosen key number together with the
position of the terminating check. -/
def nextKeyNum (draws : Nat → Nat) (limits : Nat → Int) : Nat → Nat → Option (Nat × Nat)
  | _, 0 => none
  | pos, fuel + 1 =>
    if (draws pos : Int) ≤ limits pos then some (draws pos, pos)
    else nextKeyNum draws limits (pos + 1) fuel

/-- `CoreWorkload::retry`: `for retry in 0..limits` attempts; return success
immediately after a successful attempt, sleep after every failed attempt, and
return the terminating error when the loop ends.  `results pos` tells whether
the `pos`-th call of `f` succeeds.  Returns (success, number of attempts made,
number of sleeps performed). -/
def retryLoop (results : Nat → Bool) : Nat → Nat → (Bool × Nat × Nat)
  | pos, 0 => (false, pos, pos)
  | pos, fuel + 1 =>
    if results pos then (true, pos + 1, pos) else retryLoop results (pos + 1) fuel

/-- `CoreWorkload::retry` entered with `limits` loop iterations, as
`CoreWorkload::insert` does with `limits = insertion_retry_limit`. -/
def retryExec (results : Nat → Bool) (limits : Nat) : Bool × Nat × Nat :=
  retryLoop results 0 limits

/-- `CoreWorkload::new`: `record_count == 0` is replaced by `usize::MAX`. -/
def effectiveRecordCount (recordCount : Nat) : Nat :=
  if recordCount = 0 then USIZE_MOD - 1 else recordCount

/-- Wrapping `usize` subtraction (release-mode semantics of
`record_count - insert_start`). -/
def wrapSub (a b : Nat) : Nat := (a + USIZE_MOD - b) % USIZE_MOD

/-- The `record_count < insert_start + insert_count` check in
`CoreWorkload::new`, with `insert_count` computed as in the source
(`record_count - insert_start`) and `usize` addition wrapping. -/
def newInvalidGuard (recordCount insertStart : Nat) : Bool :=
  let rc := effectiveRecordCount recordCount
  let ic := wrapSub rc insertStart
  decide (rc < (insertStart + ic) % USIZE_MOD)

/-- `Sequential*Generator` (src/generator/sequential.rs): `stop` is the
source's `end` field (a Lean keyword); `val` is the atomic tally, initialised
to `start` and wrapping at 2^64 on `fetch_add`. -/
structure SeqGen where
  start : Nat
  stop : Nat
  val : Nat

/-- `SequentialUsizeGenerator::new`. -/
def SeqGen.new (start stop : Nat) : SeqGen := ⟨start, stop, start⟩

/-- `Generator::next` for the sequential generator:
`start + (val % (end - start + 1))` with the tally post-incremented.  All
arithmetic is wrapping `usize` (release-mode) arithmetic on values below 2^64:
the divisor `end - start + 1` wraps, and when it wraps to `0` (namely at
`start = 0`, `end = usize::MAX`) the remainder operation panics — modelled as
`none`. -/
def SeqGen.next (g : SeqGen) : Option (Nat × SeqGen) :=
  let divisor := (wrapSub g.stop g.start + 1) % USIZE_MOD
  if divisor = 0 then none
  else some ((g.start + g.val % divisor) % USIZE_MOD,
    { g with val := (g.val + 1) % USIZE_MOD })

/-- State of the sequential generator after `k` calls to `next()`; `none` if
some call panicked. -/
def seqRun (g : SeqGen) : Nat → Option SeqGen
  | 0 => some g
  | k + 1 => (seqRun g k).bind (fun g' => (g'.next).map Prod.snd)

/-- The value returned by the `k`-th (0-based) call to `next()`; `none` if
the run panicked. -/
def seqNthVal (g : SeqGen) (k : Nat) : Option Nat :=
  (seqRun g k).bind (fun g' => (g'.next).map Prod.fst)

/-! ## Claim theorems for the workload engine -/

/-- Claim C1 (code bug): with data integrity enabled and a constant field
length, verifying against `build_values` of the same key and field list never
returns success: after every requested field verifies byte-for-byte,
`verify_row` reaches its trailing `todo!()` and panics (`none`).  The failure
paths of the claim do hold — a missing field or a changed byte returns an
`Except.error` — but the success the claim and spec promise is unreachable. -/
theorem c1_verify_built_row_panics (hash : String → Nat) (size : Nat) (key : String)
    (fieldNames : List String) :
    verifyRow hash size key fieldNames (buildValuesDet hash size key fieldNames) = none := by
  induction fieldNames with
  | nil => rfl
  | cons f fs ih =>
    simp [verifyRow, buildValuesDet, removeField] at ih ⊢
    exact ih

/-- Claim C2 (code bug): `retry` performs exactly `limits` attempts in total —
there is no additional initial attempt.  With the default
`insertion_retry_limit = 0`, `insert` returns the terminating error without
calling the backend even once, although the backend would succeed; and when
all attempts fail it sleeps after every attempt, including the last. -/
theorem c2_retry_attempt_budget :
    (retryExec (fun _ => true) 0 = (false, 0, 0)) ∧
    (∀ limits : Nat, retryExec (fun _ => false) limits = (false, limits, limits)) := by
  refine ⟨rfl, ?_⟩
  have h : ∀ (fuel pos : Nat),
      retryLoop (fun _ => false) pos fuel = (false, pos + fuel, pos + fuel) := by
    intro fuel
    induction fuel with
    | zero => intro pos; simp [retryLoop]
    | succ n ih =>
      intro pos
      have harith : pos + 1 + n = pos + (n + 1) := by omega
      simp only [retryLoop, Bool.false_eq_true, if_false, ih, harith]
  intro limits
  simpa using h limits 0

/-- Claim C6: a scan transaction draws its start key from the
transaction-insert sequencer's issuer and never acknowledges it, so after `n`
consecutive scans the issue counter has grown by exactly `n` while the
watermark (and the whole acknowledgment window) is unchanged. -/
theorem c6_scan_only_grows_counter {α : Type}
    (db : String → String → Nat → List String → Except String α) (n : Nat) (w : CoreW) :
    (iterScan db n w).tiks.counter = w.tiks.counter + (n : Int) ∧
    (iterScan db n w).tiks.limit = w.tiks.limit ∧
    (iterScan db n w).tiks.windows = w.tiks.windows := by
  induction n generalizing w with
  | zero => simp [iterScan]
  | succ n ih =>
    have hstep : ((txnScan db w).2).tiks = (w.tiks.next).2 := rfl
    obtain ⟨h1, h2, h3⟩ := ih ((txnScan db w).2)
    refine ⟨?_, ?_, ?_⟩
    · show (iterScan db n (txnScan db w).2).tiks.counter = w.tiks.counter + ((n + 1 : Nat) : Int)
      rw [h1, hstep]
      show w.tiks.counter + 1 + (n : Int) = w.tiks.counter + ((n + 1 : Nat) : Int)
      push_cast
      ring
    · show (iterScan db n (txnScan db w).2).tiks.limit = w.tiks.limit
      rw [h2, hstep]
      rfl
    · show (iterScan db n (txnScan db w).2).tiks.windows = w.tiks.windows
      rw [h3, hstep]
      rfl

/-- Claim C7 (code bug): because `insert_count` is computed as
`record_count - insert_start` (wrapping), the construction-time check
`record_count < insert_start + insert_count` is identically false for every
`usize` configuration — the diagnostic panic is dead code, and an invalid
combination such as `insert_start > record_count` is not rejected. -/
theorem c7_invalid_guard_never_fires (recordCount insertStart : Nat)
    (h1 : recordCount < USIZE_MOD) (h2 : insertStart < USIZE_MOD) :
    newInvalidGuard recordCount insertStart = false := by
  unfold USIZE_MOD at h1 h2
  unfold newInvalidGuard effectiveRecordCount wrapSub USIZE_MOD
  simp only [decide_eq_false_iff_not]
  by_cases h : recordCount = 0 <;> simp [h] <;> omega

/-- Witness for C7 at the invalid combination `record_count = 5`,
`insert_start = 10`: the guard does not fire. -/
theorem c7_invalid_guard_never_fires_witness :
    (5 : Nat) < USIZE_MOD ∧ (10 : Nat) < USIZE_MOD ∧ newInvalidGuard 5 10 = false :=
  ⟨by norm_num [USIZE_MOD], by norm_num [USIZE_MOD],
    c7_invalid_guard_never_fires 5 10 (by norm_num [USIZE_MOD]) (by norm_num [USIZE_MOD])⟩

/-- Claim C8: whenever `next_key_num` returns, the returned key number is at
most the watermark observed at the loop's terminating check, so Read, Update
and ReadModifyWrite transactions only address key numbers at or below the
watermark. -/
theorem c8_next_key_num_below_watermark (draws : Nat → Nat) (limits : Nat → Int)
    (pos fuel : Nat) (k p : Nat) (h : nextKeyNum draws limits pos fuel = some (k, p)) :
    (k : Int) ≤ limits p := by
  induction fuel generalizing pos with
  | zero => simp [nextKeyNum] at h
  | succ n ih =>
    rw [nextKeyNum] at h
    split at h
    · rename_i hle
      cases h
      exact hle
    · exact ih (pos + 1) h

/-- Witness for C8: a chooser that first draws `3` against watermark `5`. -/
theorem c8_next_key_num_below_watermark_witness :
    nextKeyNum (fun _ => 3) (fun _ => 5) 0 1 = some (3, 0) ∧ ((3 : Nat) : Int) ≤ 5 :=
  ⟨rfl, c8_next_key_num_below_watermark (fun _ => 3) (fun _ => 5) 0 1 3 0 rfl⟩

/-- Claim C9: whenever `txn_insert` completes, the key number it drew from the
transaction-insert sequencer's issuer has been acknowledged after the backend
call (the acknowledgment is applied to the post-`next()` sequencer state
regardless of the backend outcome, which is arbitrary here), and the backend
call's result is returned unchanged. -/
theorem c9_txn_insert_ack_after_call
    (db : String → String → List (String × ValueM) → Except String Unit)
    (w : CoreW) (res : Except String Unit) (w' : CoreW)
    (h : txnInsert db w = some (res, w')) :
    res = db w.table (w.buildKeyName (intToUsize w.tiks.counter))
        (w.buildValues (w.buildKeyName (intToUsize w.tiks.counter))) ∧
    ((w.tiks.next).2).acknowledge w.tiks.counter = some w'.tiks := by
  simp only [txnInsert] at h
  split at h
  · exact absurd h (by simp)
  · rename_i tiks2 heq
    cases h
    exact ⟨rfl, heq⟩

/-- A backend stub whose insert always fails, for the C9 witness. -/
def dbBoom : String → String → List (String × ValueM) → Except String Unit :=
  fun _ _ _ => Except.error "db down"

/-- A small concrete workload state for the C9 witness. -/
def wSmall : CoreW :=
  { table := "ycsb"
    fieldNames := ["field0"]
    fieldLen := 3
    dataIntegrity := false
    orderedInserts := true
    zeroPadding := 1
    readAllFields := true
    ahash := fun _ => 0
    tiks := AckCounter.new 1
    scanLens := fun _ => 1
    scanPos := 0
    fieldIdxs := fun _ => 0
    fieldPos := 0 }

/-- Witness for C9 on a failing backend: the error is passed through and the
drawn key number is acknowledged anyway. -/
theorem c9_txn_insert_ack_after_call_witness :
    ∃ (res : Except String Unit) (w' : CoreW), txnInsert dbBoom wSmall = some (res, w') ∧
      res = dbBoom wSmall.table (wSmall.buildKeyName (intToUsize wSmall.tiks.counter))
        (wSmall.buildValues (wSmall.buildKeyName (intToUsize wSmall.tiks.counter))) ∧
      ((wSmall.tiks.next).2).acknowledge wSmall.tiks.counter = some w'.tiks := by
  have hsome : (txnInsert dbBoom wSmall).isSome = true := by rfl
  obtain ⟨res, w', hrw⟩ : ∃ res w', txnInsert dbBoom wSmall = some (res, w') :=
    ⟨((txnInsert dbBoom wSmall).get hsome).1, ((txnInsert dbBoom wSmall).get hsome).2,
      (Option.some_get hsome).symm⟩
  obtain ⟨ha, hb⟩ := c9_txn_insert_ack_after_call dbBoom wSmall res w' hrw
  exact ⟨res, w', hrw, ha, hb⟩

/-- Claim C10 as stated is refuted: the internal tally starts at `start`, not
at `0`, so for `start = 2`, `end = 4` the first call (`k = 0`) returns
`2 + (2 % 3) = 4`, not `start + (0 % 3) = 2`. -/
theorem c10_counterexample :
    seqNthVal (SeqGen.new 2 4) 0 = some 4 ∧
      seqNthVal (SeqGen.new 2 4) 0 ≠ some (2 + (0 % (4 - 2 + 1))) := by
  constructor <;> decide

/-- At the full `usize` range the wrapped divisor `end - start + 1` is `0`
and `next()` panics with a remainder-by-zero instead of returning. -/
theorem seq_next_full_range_panics : (SeqGen.new 0 (USIZE_MOD - 1)).next = none := rfl

theorem seqRun_new (s e : Nat) (h1 : s ≤ e) (h2 : e < USIZE_MOD)
    (h3 : e - s + 1 < USIZE_MOD) :
    ∀ k : Nat, seqRun (SeqGen.new s e) k = some ⟨s, e, (s + k) % USIZE_MOD⟩ := by
  have hdiv : (wrapSub e s + 1) % USIZE_MOD = e - s + 1 := by
    unfold wrapSub USIZE_MOD at *
    omega
  intro k
  induction k with
  | zero =>
    show some (SeqGen.new s e) = some (⟨s, e, (s + 0) % USIZE_MOD⟩ : SeqGen)
    have h0 : (s + 0) % USIZE_MOD = s := by
      unfold USIZE_MOD at *
      omega
    rw [h0]
    rfl
  | succ n ih =>
    show (seqRun (SeqGen.new s e) n).bind (fun g' => (g'.next).map Prod.snd) = _
    rw [ih, Option.some_bind]
    simp only [SeqGen.next, hdiv]
    rw [if_neg (by omega)]
    have hsucc : ((s + n) % USIZE_MOD + 1) % USIZE_MOD = (s + (n + 1)) % USIZE_MOD := by
      unfold USIZE_MOD
      omega
    simp only [Option.map_some', hsucc]

/-- Claim C10 (amended): for a sequential generator with `start ≤ end` (valid
`usize` bounds) and `end - start + 1 < 2^64` — excluding the full-range
configuration `start = 0`, `end = usize::MAX`, where the wrapped divisor is
`0` and `next()` panics — the `k`-th call to `next()` returns
`start + (((start + k) mod 2^64) mod (end - start + 1))`.  The tally begins at
`start`, so the first call returns `start` only when `start` is a multiple of
`end - start + 1`; every returned value still lies in `[start, end]` and the
sequence cycles. -/
theorem c10_sequential_formula (s e k : Nat) (h1 : s ≤ e) (h2 : e < USIZE_MOD)
    (h3 : e - s + 1 < USIZE_MOD) :
    seqNthVal (SeqGen.new s e) k = some (s + ((s + k) % USIZE_MOD % (e - s + 1))) ∧
    s ≤ s + ((s + k) % USIZE_MOD % (e - s + 1)) ∧
    s + ((s + k) % USIZE_MOD % (e - s + 1)) ≤ e := by
  have hdiv : (wrapSub e s + 1) % USIZE_MOD = e - s + 1 := by
    unfold wrapSub USIZE_MOD at *
    omega
  have hr : (s + k) % USIZE_MOD % (e - s + 1) < e - s + 1 := Nat.mod_lt _ (by omega)
  have hmain :
      seqNthVal (SeqGen.new s e) k = some (s + ((s + k) % USIZE_MOD % (e - s + 1))) := by
    unfold seqNthVal
    rw [seqRun_new s e h1 h2 h3 k, Option.some_bind]
    simp only [SeqGen.next, hdiv]
    rw [if_neg (by omega)]
    have hlt : (s + (s + k) % USIZE_MOD % (e - s + 1)) % USIZE_MOD
        = s + (s + k) % USIZE_MOD % (e - s + 1) := Nat.mod_eq_of_lt (by omega)
    simp only [Option.map_some', hlt]
  exact ⟨hmain, by omega, by omega⟩

/-- Witness for the amended C10 at `start = 2`, `end = 4`, `k = 0`. -/
theorem c10_sequential_formula_witness :
    (2 : Nat) ≤ 4 ∧ (4 : Nat) < USIZE_MOD ∧ (4 - 2 + 1 : Nat) < USIZE_MOD ∧
      seqNthVal (SeqGen.new 2 4) 0 = some (2 + ((2 + 0) % USIZE_MOD % (4 - 2 + 1))) :=
  ⟨by norm_num, by norm_num [USIZE_MOD], by norm_num [USIZE_MOD],
    (c10_sequential_formula 2 4 0 (by norm_num) (by norm_num [USIZE_MOD])
      (by norm_num [USIZE_MOD])).1⟩

end Yay
